import Mathlib

/-!
Shallow embedding of the proactive forwarding / multiplexing core of the
MQNS quantum-network simulator, together with theorems checking the
natural-language specification against the code.

Conventions:
* Node names, channel names and reservation keys are `String`s.
* `path_id`s are `Nat`s; swap ranks are `Int`s.
* Simulated time is `ℚ` (the Python code uses floats only as exact sums of
  configured delays here; no rounding behaviour is claim-relevant).
* Fallible Python code (assertions, raised exceptions) is embedded in
  `Except Err`.
* Mutation is embedded by explicit state passing: functions return the
  updated records.
-/

set_option maxHeartbeats 1000000

namespace MQNS

abbrev Err := String

/-- States of a memory qubit, from `mqns.entity.memory.QubitState`. -/
inductive QubitState where
  | RAW
  | ACTIVE
  | RESERVED
  | ENTANGLED0
  | ELIGIBLE
  | PURIF
  | RELEASE
deriving DecidableEq

/-- Werner-state entanglement record (`mqns.models.epr.WernerStateEntanglement`),
restricted to the fields the claims touch. -/
structure WernerStateEntanglement where
  name : String
  src : Option String
  dst : Option String
  key : Option String
  tmp_path_ids : Option (Finset Nat)
  creation_time : Option ℚ
  decoherence_time : Option ℚ
deriving DecidableEq

/-- Memory qubit (`mqns.entity.memory.MemoryQubit`), restricted to the fields
the claims touch. -/
structure MemoryQubit where
  addr : Nat
  state : QubitState
  qchannel : Option String
  path_id : Option Nat
  active : Option String
deriving DecidableEq

/-- Embedding of `has_intersect_tmp_path_ids` (mux_statistical.py) at the
call sites where the second argument is another tmp_path_ids set. -/
def has_intersect_tmp_path_ids (epr0 : Option (Finset Nat)) (epr1 : Option (Finset Nat)) : Bool :=
  match epr0, epr1 with
  | some s0, some s1 => decide ((s0 ∩ s1).Nonempty)
  | _, _ => false

/-- Embedding of `has_intersect_tmp_path_ids` (mux_statistical.py) at the
call sites where the second argument is the list of path_ids registered on a
channel. -/
def has_intersect_list (epr0 : Option (Finset Nat)) (path_ids : List Nat) : Bool :=
  match epr0 with
  | some s0 => path_ids.any (fun p => decide (p ∈ s0))
  | none => false

/-- Embedding of `intersect_tmp_path_ids` (mux_statistical.py, lines 25-34):
asserts both sets are present, intersects them, and raises when the
intersection is empty. -/
def intersect_tmp_path_ids (epr0 epr1 : WernerStateEntanglement) : Except Err (Finset Nat) :=
  match epr0.tmp_path_ids, epr1.tmp_path_ids with
  | some s0, some s1 =>
      if (s0 ∩ s1) = ∅ then .error "Cannot select path ID" else .ok (s0 ∩ s1)
  | _, _ => .error "AssertionError: tmp_path_ids is None"

/-- Embedding of `MuxSchemeStatistical.swapping_succeeded` (lines 206-213):
the merged EPR's candidate set becomes the intersection of the two inputs. -/
def swapping_succeeded (prev_epr next_epr new_epr : WernerStateEntanglement) :
    Except Err WernerStateEntanglement :=
  (intersect_tmp_path_ids prev_epr next_epr).map
    (fun s => { new_epr with tmp_path_ids := some s })

/-- Embedding of `MuxSchemeStatistical.su_parallel_succeeded` (lines 224-228). -/
def su_parallel_succeeded (merged_epr new_epr other_epr : WernerStateEntanglement) :
    Except Err WernerStateEntanglement :=
  (intersect_tmp_path_ids new_epr other_epr).map
    (fun s => { merged_epr with tmp_path_ids := some s })

/-- Embedding of `MuxSchemeStatistical.su_parallel_has_conflict` (lines 215-222).
The boolean argument is the scheme's `coordinated_decisions` flag. -/
def su_parallel_has_conflict (coordinated_decisions : Bool)
    (my_new_epr : WernerStateEntanglement) (su_path_id : Nat) : Except Err Bool :=
  match my_new_epr.tmp_path_ids with
  | none => .error "AssertionError: tmp_path_ids is None"
  | some s =>
      if su_path_id ∈ s then .ok false
      else if coordinated_decisions then .error "AssertionError: not coordinated_decisions"
      else .ok true

/-- Channel-to-path_ids multimap `qchannel_paths_map` of `MuxSchemeDynamicBase`
(mux_statistical.py, line 40), embedded as an association list in insertion
order (Python dicts preserve insertion order). -/
abbrev QchannelPathsMap := List (String × List Nat)

/-- Lookup of a channel key in the map (plain `dict` access, no default). -/
def mapFind (m : QchannelPathsMap) (ch : String) : Option (List Nat) :=
  (m.find? (fun e => e.1 == ch)).map (fun e => e.2)

/-- Embedding of `MuxSchemeDynamicBase.install_path_neighbor` (lines 48-60):
appends the FIB entry's path_id to the channel's list, the `defaultdict`
creating an empty list first when the channel key is absent. -/
def install_path_neighbor (m : QchannelPathsMap) (ch : String) (path_id : Nat) :
    QchannelPathsMap :=
  if (m.find? (fun e => e.1 == ch)).isSome then
    m.map (fun e => if e.1 == ch then (e.1, e.2 ++ [path_id]) else e)
  else m ++ [(ch, [path_id])]

/-- Python `list.remove`: removes the first occurrence, raises `ValueError`
when the value is absent. -/
def removeFirst (l : List Nat) (x : Nat) : Except Err (List Nat) :=
  match l with
  | [] => .error "ValueError: list.remove(x): x not in list"
  | y :: ys => if y = x then .ok ys else (removeFirst ys x).map (fun r => y :: r)

/-- Embedding of `MuxSchemeDynamicBase.uninstall_path_neighbor` (lines 62-75):
removes the first occurrence of the path_id from the channel's list and
deletes the channel key when the list becomes empty. An absent channel key
means the `defaultdict` yields an empty list and `list.remove` raises. -/
def uninstall_path_neighbor (m : QchannelPathsMap) (ch : String) (path_id : Nat) :
    Except Err QchannelPathsMap :=
  match mapFind m ch with
  | none => .error "ValueError: list.remove(x): x not in list"
  | some paths =>
      (removeFirst paths path_id).map (fun ps =>
        if ps = [] then m.filter (fun e => !(e.1 == ch))
        else m.map (fun e => if e.1 == ch then (e.1, ps) else e))

/-- Modelled from the spec: `mqns.entity.memory.QuantumMemory` is not under
src/ (only its tests are). Spec 4.1 describes a per-node slot array of fixed
capacity: `write` stores content into a free slot and "returns None if no
matching free slot exists", `is_full()` tells whether usage reached capacity,
and `clear()` frees all slots. A slot holds the stored content's name. -/
structure QuantumMemory where
  slots : List (Option String)
deriving DecidableEq

/-- Modelled from the spec: a fresh memory of the given capacity, all slots
free. -/
def QuantumMemory.init (capacity : Nat) : QuantumMemory :=
  ⟨List.replicate capacity none⟩

/-- Helper for `write`: store into the first free slot, returning its address
and the updated slot array, or nothing when no slot is free. -/
def writeSlots : List (Option String) → String → Option (Nat × List (Option String))
  | [], _ => none
  | none :: rest, c => some (0, some c :: rest)
  | some x :: rest, c => (writeSlots rest c).map (fun r => (r.1 + 1, some x :: r.2))

/-- Modelled from the spec: `write(content) → qubit|None`; returns the written
slot address (None when memory is full) together with the memory state after
the call. -/
def QuantumMemory.write (m : QuantumMemory) (c : String) : Option Nat × QuantumMemory :=
  match writeSlots m.slots c with
  | none => (none, m)
  | some r => (some r.1, ⟨r.2⟩)

/-- Modelled from the spec: `is_full()` — no free slot remains. -/
def QuantumMemory.is_full (m : QuantumMemory) : Bool :=
  m.slots.all Option.isSome

/-- Modelled from the spec: `clear()` frees all slots. -/
def QuantumMemory.clear (m : QuantumMemory) : QuantumMemory :=
  ⟨m.slots.map (fun _ => none)⟩

/-- Sequence of writes, succeeding only when every single write succeeds. -/
def QuantumMemory.writeMany (m : QuantumMemory) (cs : List String) : Option QuantumMemory :=
  match cs with
  | [] => some m
  | c :: rest =>
      match m.write c with
      | (some _, m2) => m2.writeMany rest
      | (none, _) => none

/-- Number of free slots. -/
def freeCount (slots : List (Option String)) : Nat :=
  (slots.filter (fun s => s.isNone)).length

/-- Reservation request (link_layer.py, `ReservationRequest` dataclass).
Channels and nodes are identified by name. -/
structure ReservationRequest where
  key : String
  path_id : Option Nat
  from_node : String
  qchannel : String
deriving DecidableEq

/-- Classical messages sent by the link layer (`ReserveMsg`), tagged with
their destination node. -/
inductive ClassicMsg where
  | reserveQubit (path_id : Option Nat) (key : String) (dest : String)
  | reserveQubitOk (path_id : Option Nat) (key : String) (dest : String)
deriving DecidableEq

/-- A `LinkArchSuccessEvent` inserted into the simulator queue: target node,
the shared EPR record, and the notification timestamp. -/
structure LinkArchSuccessEvent where
  target : String
  epr : WernerStateEntanglement
  t : ℚ
deriving DecidableEq

/-- A `QubitEntangledEvent` inserted into the simulator queue. -/
structure QubitEntangledEvent where
  node : String
  neighbor : String
  qubit_addr : Nat
  t : ℚ
deriving DecidableEq

/-- Mutable tables of a `LinkLayer` instance (link_layer.py, lines 112-140):
active channels keyed by (qchannel, path_id) with (neighbor, insertion count),
pending initiator reservations keyed by reservation key with (qchannel,
next hop, local qubit address), the FIFO queue of deferred reservation
requests, and the two counters. -/
structure LinkLayerState where
  active_channels : List ((String × Option Nat) × (String × Nat))
  pending_init_reservation : List (String × (String × String × Nat))
  fifo_reservation_req : List ReservationRequest
  etg_count : Nat
  decoh_count : Nat
deriving DecidableEq

/-- Lookup in the active-channel table (`self.active_channels.get(...)`). -/
def lookupActive (ac : List ((String × Option Nat) × (String × Nat)))
    (k : String × Option Nat) : Option (String × Nat) :=
  (ac.find? (fun e => decide (e.1 = k))).map (fun e => e.2)

/-- Node-local quantum memory as seen by the link layer: slots in address
order, each an (owning qubit, optional stored EPR) pair. `memory.find`
(spec 4.1) yields matching occupied slots lazily in this order. -/
abbrev Memory := List (MemoryQubit × Option WernerStateEntanglement)

/-- Predicate of `LinkLayer.try_accept_reservation` (lines 304-310): slot
currently unoccupied, qubit not part of an active reservation, assigned to
the request's quantum channel, allocated to the request's path_id. -/
def reservable (req : ReservationRequest) (q : MemoryQubit)
    (v : Option WernerStateEntanglement) : Bool :=
  decide (v = none ∧ q.active = none ∧ q.qchannel = some req.qchannel ∧
    q.path_id = req.path_id)

/-- Embedding of `LinkLayer.try_accept_reservation` (lines 294-321): the first
matching qubit is marked RESERVED under the request's key and a
`RESERVE_QUBIT_OK` reply is produced; returns the acceptance flag, the
updated memory and the messages sent. -/
def try_accept_reservation (mem : Memory) (req : ReservationRequest) :
    Bool × Memory × List ClassicMsg :=
  match mem.find? (fun e => reservable req e.1 e.2) with
  | none => (false, mem, [])
  | some qv =>
      (true,
       mem.map (fun e => if e.1.addr = qv.1.addr then
         ({ e.1 with state := .RESERVED, active := some req.key }, e.2) else e),
       [.reserveQubitOk req.path_id req.key req.from_node])

/-- Embedding of `LinkLayer.handle_reserve_req` (lines 279-292): accept the
reservation if a qubit is available, otherwise enqueue the request (FIFO). -/
def handle_reserve_req (mem : Memory) (fifo : List ReservationRequest)
    (req : ReservationRequest) : Memory × List ReservationRequest × List ClassicMsg :=
  match try_accept_reservation mem req with
  | (true, mem2, msgs) => (mem2, fifo, msgs)
  | (false, _, _) => (mem, fifo ++ [req], [])

/-- Embedding of `LinkLayer.start_reservation` (lines 244-277): asserts the
fresh key is unused, marks the qubit ACTIVE under the key, records the pending
reservation and sends `RESERVE_QUBIT` to the next hop. The random uuid key is
an input. -/
def start_reservation (pending : List (String × (String × String × Nat)))
    (fresh_key : String) (next_hop : String) (qchannel : String) (qubit : MemoryQubit) :
    Except Err (List (String × (String × String × Nat)) × MemoryQubit × ClassicMsg) :=
  if (pending.find? (fun e => e.1 == fresh_key)).isSome then
    .error "AssertionError: key already in pending_init_reservation"
  else
    .ok (pending ++ [(fresh_key, (qchannel, next_hop, qubit.addr))],
         { qubit with state := .ACTIVE, active := some fresh_key },
         .reserveQubit qubit.path_id fresh_key next_hop)

/-- Embedding of `LinkLayer.handle_decoh_rel` (lines 410-434), handler of
`QubitDecoheredEvent` (is_decoh = true) and `QubitReleasedEvent`
(is_decoh = false). `timing_async` embeds `own.timing.is_async()`;
`fresh_key` is the uuid drawn inside `start_reservation`. Returns the link
layer state, the memory, the event's qubit, and the messages sent. -/
def handle_decoh_rel (ll : LinkLayerState) (mem : Memory) (qubit : MemoryQubit)
    (is_decoh : Bool) (timing_async : Bool) (fresh_key : String) :
    Except Err (LinkLayerState × Memory × MemoryQubit × List ClassicMsg) :=
  let ll1 : LinkLayerState :=
    { ll with decoh_count := if is_decoh then ll.decoh_count + 1 else ll.decoh_count }
  let qubit1 : MemoryQubit := { qubit with state := .RAW, active := none }
  match qubit1.qchannel with
  | none => .error "AssertionError: qubit.qchannel is None"
  | some qch =>
      match lookupActive ll1.active_channels (qch, qubit1.path_id) with
      | none =>
          match ll1.fifo_reservation_req with
          | [] => .ok (ll1, mem, qubit1, [])
          | req :: rest =>
              match try_accept_reservation mem req with
              | (true, mem2, msgs) =>
                  .ok ({ ll1 with fifo_reservation_req := rest }, mem2, qubit1, msgs)
              | (false, _, _) => .ok (ll1, mem, qubit1, [])
      | some ac =>
          if timing_async then
            (start_reservation ll1.pending_init_reservation fresh_key ac.1 qch qubit1).map
              (fun r => ({ ll1 with pending_init_reservation := r.1 }, mem, r.2.1, [r.2.2]))
          else if is_decoh then
            .error "UNEXPECTED: (t_ext + t_int) too short"
          else
            .ok (ll1, mem, qubit1, [])

/-- Embedding of `LinkLayer.generate_entanglement` (lines 335-388). The
attempt number is sampled outside (np.random.geometric) and only enters
through the delay triple returned by the out-of-scope `link_arch.delays`
collaborator, so the three delays are inputs here; `is_external` embeds
`own.timing.is_external` (always true in ASYNC timing mode). Returns the
link-layer state and the list of scheduled `LinkArchSuccessEvent`s. -/
def generate_entanglement (ll : LinkLayerState) (tc : ℚ) (is_external : ℚ → Bool)
    (d_epr_creation d_notify_a d_notify_b : ℚ) (own next_hop : String)
    (epr_name : String) (qubit : MemoryQubit) :
    LinkLayerState × List LinkArchSuccessEvent :=
  let t_epr_creation := tc + d_epr_creation
  let t_notify_a := tc + (d_epr_creation + d_notify_a)
  let t_notify_b := tc + (d_epr_creation + d_notify_b)
  let epr : WernerStateEntanglement :=
    { name := epr_name, src := some own, dst := some next_hop, key := qubit.active,
      tmp_path_ids := none, creation_time := some t_epr_creation,
      decoherence_time := none }
  if !(is_external (max t_notify_a t_notify_b)) then (ll, [])
  else (ll, [⟨own, epr, t_notify_a⟩, ⟨next_hop, epr, t_notify_b⟩])

/-- Modelled from the spec: `memory.write(content, key=...)` of the absent
`mqns.entity.memory.QuantumMemory` — spec 4.1: "stores a qubit/EPR half into
a slot matching the given path_id/key constraints"; here the key constraint
used by the link layer: a free slot whose reservation key equals the EPR's
key. Returns the updated memory and the written qubit, or nothing. -/
def memWrite (mem : Memory) (epr : WernerStateEntanglement) (key : Option String) :
    Option (Memory × MemoryQubit) :=
  match mem.find? (fun e => decide (e.2 = none ∧ e.1.active = key)) with
  | none => none
  | some qv =>
      some (mem.map (fun e => if e.1.addr = qv.1.addr then (e.1, some epr) else e), qv.1)

/-- Embedding of `LinkLayer.handle_success_entangle` (lines 390-408): asserts
the EXTERNAL phase, determines neighbor and primary side from the EPR's
src/dst, increments `etg_count` on the primary side, stores the arriving half
under its reservation key (failure is fatal), sets the receiving qubit to
ENTANGLED0 and schedules a `QubitEntangledEvent` at the current time. -/
def handle_success_entangle (own : String) (tc : ℚ) (is_external : Bool)
    (etg_count : Nat) (mem : Memory) (epr : WernerStateEntanglement) :
    Except Err (Nat × Memory × QubitEntangledEvent) :=
  if !is_external then .error "AssertionError: timing.is_external()"
  else
    match (if epr.src = some own then (epr.dst, true) else (epr.src, false)) with
    | (none, _) => .error "AssertionError: neighbor is None"
    | (some neighbor, is_primary) =>
        let count2 := if is_primary then etg_count + 1 else etg_count
        let decoh_ok := match epr.decoherence_time with
          | none => true
          | some d => decide (tc < d)
        if !decoh_ok then .error "AssertionError: decoherence_time"
        else match memWrite mem epr epr.key with
        | none => .error "Failed to store EPR"
        | some (mem2, qubit) =>
            let mem3 := mem2.map (fun e =>
              if e.1.addr = qubit.addr then ({ e.1 with state := .ENTANGLED0 }, e.2) else e)
            .ok (count2, mem3, ⟨own, neighbor, qubit.addr, tc⟩)

/-- Concrete EPR used by witnesses: candidate set {1, 2}. -/
def eprW12 : WernerStateEntanglement :=
  { name := "w12", src := none, dst := none, key := none,
    tmp_path_ids := some {1, 2}, creation_time := none, decoherence_time := none }

/-- Concrete EPR used by witnesses: candidate set {2, 3}. -/
def eprW23 : WernerStateEntanglement :=
  { name := "w23", src := none, dst := none, key := none,
    tmp_path_ids := some {2, 3}, creation_time := none, decoherence_time := none }

/-- Concrete EPR used by witnesses: no candidate set yet. -/
def eprWnone : WernerStateEntanglement :=
  { name := "wn", src := none, dst := none, key := none,
    tmp_path_ids := none, creation_time := none, decoherence_time := none }

/-- FIB entry. The module `mqns.network.proactive.fib` is not under src/;
fields modelled from the spec (3, 4.2): unique path_id, the owning node's
swap rank (`own_swap_rank`), and the per-node swap ranks consulted through
`find_index_and_swap_rank`. -/
structure FibEntry where
  path_id : Nat
  own_swap_rank : Int
  node_ranks : List (String × Int)
deriving DecidableEq

/-- Modelled from the spec: `FibEntry.find_index_and_swap_rank(node_name)`
locates a node's swap rank along the path, failing when the node is not on
the path (spec 4.2). Only the rank component is used by the mux. -/
def find_index_and_swap_rank (fe : FibEntry) (name : String) : Except Err Int :=
  match fe.node_ranks.find? (fun e => e.1 == name) with
  | none => .error "ValueError: node not in path"
  | some e => .ok e.2

/-- FIB table keyed by path_id. -/
abbrev Fib := List (Nat × FibEntry)

/-- Modelled from the spec: `fib.get(path_id)` fails if the path is unknown
(spec 4.2). -/
def fibGet (fib : Fib) (path_id : Nat) : Except Err FibEntry :=
  match fib.find? (fun e => e.1 == path_id) with
  | none => .error "KeyError: unknown path_id"
  | some e => .ok e.2

/-- Selection strategy `fw._select_swap_qubit` (select.py `SelectSwapQubit`):
None means selecting the first candidate. -/
abbrev SelectSwapQubit :=
  Option (MemoryQubit → WernerStateEntanglement → Option FibEntry →
    List (MemoryQubit × WernerStateEntanglement) → MemoryQubit × WernerStateEntanglement)

/-- Embedding of `select_swap_qubit` (select.py, lines 62-75). -/
def select_swap_qubit (fn : SelectSwapQubit) (qubit : MemoryQubit)
    (epr : WernerStateEntanglement) (fib_entry : Option FibEntry)
    (candidates : List (MemoryQubit × WernerStateEntanglement)) :
    Option (MemoryQubit × WernerStateEntanglement) :=
  match fn with
  | none => candidates.head?
  | some f => if candidates.isEmpty then none else some (f qubit epr fib_entry candidates)

/-- Channel filter of `find_swap_candidate` (mux_statistical.py, lines
175-179): membership in `matched_channels` — a channel different from the
qubit's own whose registered path_ids intersect the EPR's candidate set. -/
def matched_channel (m : QchannelPathsMap) (qch : String)
    (tmp : Option (Finset Nat)) (ch : String) : Bool :=
  !(ch == qch) && has_intersect_list tmp ((mapFind m ch).getD [])

/-- Qubit filter of `find_swap_candidate` (lines 186-192): ELIGIBLE qubits
holding an EPR, assigned to a matched channel, with overlapping candidate
sets; `memory.find(..., has_epr=True)` yields slots in address order. -/
def swap_candidates (m : QchannelPathsMap) (mem : Memory) (qch : String)
    (epr : WernerStateEntanglement) : List (MemoryQubit × WernerStateEntanglement) :=
  mem.filterMap (fun e =>
    e.2.bind (fun v =>
      e.1.qchannel.bind (fun c =>
        if decide (e.1.state = QubitState.ELIGIBLE) &&
           matched_channel m qch epr.tmp_path_ids c &&
           has_intersect_tmp_path_ids epr.tmp_path_ids v.tmp_path_ids
        then some (e.1, v) else none)))

/-- Result of `find_swap_candidate`: the partner qubit, the FIB entry of the
chosen path, and the two EPR records after the call (the Python code mutates
them in place under `coordinated_decisions`). -/
structure SwapCandidateResult where
  mq1 : MemoryQubit
  fib_entry : FibEntry
  epr : WernerStateEntanglement
  epr1 : WernerStateEntanglement
deriving DecidableEq

/-- Enumeration of a finite path_id set as a list, standing in for Python's
implementation-defined frozenset iteration order (deterministic here; the
order never affects results, only which of several errors surfaces first). -/
def enumFinset (s : Finset Nat) : List Nat :=
  (List.range (s.sup id + 1)).filter (fun a => a ∈ s)

/-- Tail of `find_swap_candidate` past the partner selection (lines 200-204):
`random.choice` (embedded as `pick`) over the nonempty intersection, the
coordinated-decisions commit of both candidate sets, and the FIB lookup of
the chosen path. -/
def find_swap_candidate_tail (coordinated_decisions : Bool) (fib : Fib)
    (pick : List Nat → Nat) (epr : WernerStateEntanglement)
    (me : MemoryQubit × WernerStateEntanglement) (inter : Finset Nat) :
    Except Err (Option SwapCandidateResult) :=
  match fibGet fib (pick (enumFinset inter)) with
  | .error e => .error e
  | .ok fe =>
      .ok (some ⟨me.1, fe,
        (if coordinated_decisions
          then { epr with tmp_path_ids := some {pick (enumFinset inter)} }
          else epr),
        (if coordinated_decisions
          then { me.2 with tmp_path_ids := some {pick (enumFinset inter)} }
          else me.2)⟩)

/-- Embedding of `MuxSchemeStatistical.find_swap_candidate` (lines 167-204).
`pick` embeds `random.choice` over the list of intersection elements. -/
def find_swap_candidate (coordinated_decisions : Bool) (m : QchannelPathsMap)
    (fib : Fib) (fn : SelectSwapQubit) (pick : List Nat → Nat) (mem : Memory)
    (qubit : MemoryQubit) (epr : WernerStateEntanglement) (fib_entry : Option FibEntry) :
    Except Err (Option SwapCandidateResult) :=
  match qubit.qchannel with
  | none => .error "AssertionError: qubit.qchannel is None"
  | some qch =>
      match select_swap_qubit fn qubit epr fib_entry (swap_candidates m mem qch epr) with
      | none => .ok none
      | some me =>
          match intersect_tmp_path_ids epr me.2 with
          | .error e => .error e
          | .ok inter => find_swap_candidate_tail coordinated_decisions fib pick epr me inter

/-- List-comprehension over an `Except`-producing function: first raised
exception wins, as in Python. -/
def mapExcept (g : Nat → Except Err Int) : List Nat → Except Err (List Int)
  | [] => .ok []
  | p :: rest =>
      match g p, mapExcept g rest with
      | .error e, _ => .error e
      | .ok _, .error e => .error e
      | .ok d, .ok ds => .ok (d :: ds)

/-- Embedding of `calc_rank_diff` inside `_can_enter_purif` (lines 157-160):
the node's own swap rank minus the notifying neighbor's rank on the path. -/
def calc_rank_diff (fib : Fib) (neighbor : String) (path_id : Nat) : Except Err Int :=
  match fibGet fib path_id with
  | .error e => .error e
  | .ok fe =>
      match find_index_and_swap_rank fe neighbor with
      | .error e => .error e
      | .ok p_rank => .ok (fe.own_swap_rank - p_rank)

/-- Embedding of `MuxSchemeStatistical._can_enter_purif` (lines 156-165):
asserts all per-candidate-path rank differences agree and admits purification
when the common difference is at most 0. -/
def can_enter_purif (fib : Fib) (epr : WernerStateEntanglement) (neighbor : String) :
    Except Err Bool :=
  match epr.tmp_path_ids with
  | none => .error "AssertionError: tmp_path_ids is None"
  | some s =>
      match mapExcept (calc_rank_diff fib neighbor) (enumFinset s) with
      | .error e => .error e
      | .ok [] => .error "ValueError: min() arg is an empty sequence"
      | .ok (d :: ds) =>
          if ds.all (fun x => x == d) then .ok (decide (d ≤ 0))
          else .error "AssertionError: min(rank_diff) == max(rank_diff)"

/-- Result of `qubit_is_entangled`: the qubit after the call, the stored EPR
after the call (none when the qubit was released), whether
`fw.qubit_is_eligible` was invoked, and whether the qubit was released due to
an uninstalled path. -/
structure QubitEntangledResult where
  qubit : MemoryQubit
  epr : Option WernerStateEntanglement
  notified_eligible : Bool
  released : Bool
deriving DecidableEq

/-- Tail of `qubit_is_entangled` after the tmp_path_ids bookkeeping (lines
148-154): consult `_can_enter_purif`; with the empty purif scheme the qubit
moves through PURIF straight to ELIGIBLE and the forwarder is notified. -/
def qubit_is_entangled_finish (fib : Fib) (qubit : MemoryQubit)
    (epr2 : WernerStateEntanglement) (neighbor : String) :
    Except Err QubitEntangledResult :=
  match can_enter_purif fib epr2 neighbor with
  | .error e => .error e
  | .ok true => .ok ⟨{ qubit with state := .ELIGIBLE }, some epr2, true, false⟩
  | .ok false => .ok ⟨qubit, some epr2, false, false⟩

/-- Embedding of `MuxSchemeStatistical.qubit_is_entangled` (lines 128-154)
together with `MuxSchemeDynamicBase._qubit_is_entangled_0` (lines 81-90). -/
def qubit_is_entangled (coordinated_decisions : Bool) (m : QchannelPathsMap)
    (fib : Fib) (mem : Memory) (qubit : MemoryQubit) (neighbor : String) :
    Except Err QubitEntangledResult :=
  match qubit.path_id with
  | some _ => .error "AssertionError: qubit.path_id is not None"
  | none =>
  match qubit.qchannel with
  | none => .error "AssertionError: no qubit-qchannel assignment"
  | some qch =>
      let possible_path_ids := ((mapFind m qch).getD []).toFinset
      if possible_path_ids = ∅ then
        .ok ⟨qubit, none, false, true⟩
      else
        match mem.find? (fun e => e.1.addr == qubit.addr) with
        | none => .error "IndexError: memory.get(addr, must=True)"
        | some e =>
            match e.2 with
            | none => .error "IndexError: memory.get(addr, must=True)"
            | some epr =>
                match epr.tmp_path_ids with
                | none =>
                    qubit_is_entangled_finish fib qubit
                      { epr with tmp_path_ids := some possible_path_ids } neighbor
                | some t =>
                    if coordinated_decisions then
                      if t ⊆ possible_path_ids then
                        qubit_is_entangled_finish fib qubit epr neighbor
                      else .error "AssertionError: tmp_path_ids.issubset"
                    else
                      if t = possible_path_ids then
                        qubit_is_entangled_finish fib qubit epr neighbor
                      else .error "AssertionError: tmp_path_ids equality"

/-- Empty link-layer state used by witnesses. -/
def llW : LinkLayerState :=
  { active_channels := [], pending_init_reservation := [], fifo_reservation_req := [],
    etg_count := 0, decoh_count := 0 }

/-- Reserved initiator-side qubit used by witnesses. -/
def qubitW : MemoryQubit :=
  { addr := 0, state := .RESERVED, qchannel := some "qc", path_id := none,
    active := some "k" }

/-- EPR record produced by `generate_entanglement` in the witness scenario. -/
def eprGenW : WernerStateEntanglement :=
  { name := "e", src := some "A", dst := some "B", key := some "k",
    tmp_path_ids := none, creation_time := some (0 + 1), decoherence_time := none }

/-- Link-layer state with one active channel toward node B (initiator side),
used by the C7 scenarios. -/
def llAC : LinkLayerState :=
  { active_channels := [(("qc", none), ("B", 1))], pending_init_reservation := [],
    fifo_reservation_req := [], etg_count := 0, decoh_count := 0 }

/-- Busy qubit (active reservation) used by the C6 scenarios. -/
def qubitBusyW : MemoryQubit :=
  { addr := 0, state := .ACTIVE, qchannel := some "qc", path_id := none,
    active := some "kb" }

/-- Free RAW qubit on channel "qc" used by the C6 scenarios. -/
def qubitFreeW : MemoryQubit :=
  { addr := 1, state := .RAW, qchannel := some "qc", path_id := none, active := none }

/-- Reservation request from node A over channel "qc" used by the C6
scenarios. -/
def reqW : ReservationRequest :=
  { key := "key1", path_id := none, from_node := "A", qchannel := "qc" }

/-- Memory holding one busy and one matching free qubit. -/
def memAcceptW : Memory := [(qubitBusyW, none), (qubitFreeW, none)]

/-- Memory holding only a busy qubit: no reservation can be accepted. -/
def memRejectW : Memory := [(qubitBusyW, none)]

/-- Memory with one reserved qubit under key "k", ready to store the arriving
EPR half. -/
def memLinkW : Memory := [(qubitW, none)]

/-- FIB entry for path 2 used by the C4/C5 witnesses. -/
def fibE2 : FibEntry :=
  { path_id := 2, own_swap_rank := 0, node_ranks := [("A", 1), ("B", 0), ("C", 2)] }

/-- FIB table holding only path 2. -/
def fibW : Fib := [(2, fibE2)]

/-- Channel map used by the C4 witness: paths 1,2 on qc1 and 2,3 on qc2. -/
def mapW : QchannelPathsMap := [("qc1", [1, 2]), ("qc2", [2, 3])]

/-- ELIGIBLE query qubit on channel qc1 used by the C4 witness. -/
def qubitSwapW : MemoryQubit :=
  { addr := 0, state := .ELIGIBLE, qchannel := some "qc1", path_id := none,
    active := none }

/-- ELIGIBLE partner qubit on channel qc2 used by the C4 witness. -/
def qubitPartnerW : MemoryQubit :=
  { addr := 1, state := .ELIGIBLE, qchannel := some "qc2", path_id := none,
    active := none }

/-- Memory holding the partner qubit with its EPR (candidate set {2, 3}). -/
def memSwapW : Memory := [(qubitPartnerW, some eprW23)]

/-- Head-picking strategy standing in for random.choice in witnesses. -/
def pickHead (l : List Nat) : Nat := l.headD 0

/-- Expected result of the C4 witness call. -/
def resSwapW : SwapCandidateResult :=
  { mq1 := qubitPartnerW, fib_entry := fibE2, epr := eprW12, epr1 := eprW23 }

/-- Channel map used by the C5 witness: only path 2 registered on qc1. -/
def mapC5 : QchannelPathsMap := [("qc1", [2])]

/-- Freshly entangled qubit on channel qc1 used by the C5 witness. -/
def qubitEnt : MemoryQubit :=
  { addr := 0, state := .ENTANGLED0, qchannel := some "qc1", path_id := none,
    active := some "k" }

/-- EPR of the C5 witness with candidate set {2}. -/
def eprC5 : WernerStateEntanglement :=
  { name := "e5", src := some "B", dst := some "A", key := some "k",
    tmp_path_ids := some {2}, creation_time := none, decoherence_time := none }

/-- Memory of the C5 witness. -/
def memC5 : Memory := [(qubitEnt, some eprC5)]

/-- C1: merging two half-pairs whose candidate sets are both non-None yields,
in `swapping_succeeded` as well as in `su_parallel_succeeded`, a merged pair
whose candidate set is exactly the set intersection of the inputs; an empty
intersection raises an exception, so an empty candidate set is never silently
produced. -/
theorem swap_merges_candidate_sets_by_intersection
    (prev nxt fresh merged : WernerStateEntanglement) (s0 s1 : Finset Nat)
    (h0 : prev.tmp_path_ids = some s0) (h1 : nxt.tmp_path_ids = some s1) :
    ((s0 ∩ s1).Nonempty →
      swapping_succeeded prev nxt fresh = .ok { fresh with tmp_path_ids := some (s0 ∩ s1) } ∧
      su_parallel_succeeded merged prev nxt = .ok { merged with tmp_path_ids := some (s0 ∩ s1) }) ∧
    (s0 ∩ s1 = ∅ →
      (swapping_succeeded prev nxt fresh).isOk = false ∧
      (su_parallel_succeeded merged prev nxt).isOk = false) := by
  constructor
  · intro hne
    have h : ¬ (s0 ∩ s1) = ∅ := Finset.nonempty_iff_ne_empty.mp hne
    simp [swapping_succeeded, su_parallel_succeeded, intersect_tmp_path_ids, h0, h1, h,
      Except.map]
  · intro he
    simp [swapping_succeeded, su_parallel_succeeded, intersect_tmp_path_ids, h0, h1, he,
      Except.isOk, Except.toBool, Except.map]

/-- Witness for C1 at the concrete sets {1,2} and {2,3}. -/
theorem swap_merges_candidate_sets_by_intersection_witness :
    (({1, 2} : Finset Nat) ∩ {2, 3}).Nonempty ∧
    swapping_succeeded eprW12 eprW23 eprWnone =
      .ok { eprWnone with tmp_path_ids := some (({1, 2} : Finset Nat) ∩ {2, 3}) } :=
  ⟨by decide,
   ((swap_merges_candidate_sets_by_intersection eprW12 eprW23 eprWnone eprWnone
      {1, 2} {2, 3} rfl rfl).1 (by decide)).1⟩

/-- C2 counterexample: with `coordinated_decisions = True`, a parallel-swap
path_id outside the merged EPR's candidate set makes
`su_parallel_has_conflict` raise an assertion error instead of returning
`True` normally, refuting the claim as stated (which quantifies over every
merged EPR with a non-None candidate set and every path_id, with no
restriction on the scheme configuration). -/
theorem su_parallel_conflict_raises_under_coordination :
    eprW12.tmp_path_ids = some {1, 2} ∧ (5 ∉ ({1, 2} : Finset Nat)) ∧
    (su_parallel_has_conflict true eprW12 5).isOk = false := by
  refine ⟨rfl, by decide, ?_⟩
  rfl

/-- C2 (amended): for every merged EPR with a non-None candidate set and every
parallel-swap path_id, `su_parallel_has_conflict` returns `False` when the
path_id is in the candidate set; when the path_id is outside the set and
`coordinated_decisions` is `False` (the physically realistic default) it
returns `True` normally, silently flagging the outcome for discard; when the
path_id is outside the set and `coordinated_decisions` is `True` it raises an
assertion error. -/
theorem su_parallel_conflict_iff_not_member
    (coordinated : Bool) (e : WernerStateEntanglement) (s : Finset Nat) (pid : Nat)
    (h : e.tmp_path_ids = some s) :
    su_parallel_has_conflict false e pid = .ok (decide (pid ∉ s)) ∧
    (pid ∈ s → su_parallel_has_conflict coordinated e pid = .ok false) ∧
    (pid ∉ s → coordinated = true →
      (su_parallel_has_conflict coordinated e pid).isOk = false) := by
  unfold su_parallel_has_conflict
  rw [h]
  refine ⟨?_, ?_, ?_⟩
  · by_cases hm : pid ∈ s
    · simp [hm]
    · simp [hm]
  · intro hm
    simp [hm]
  · intro hm hc
    simp [hm, hc, Except.isOk, Except.toBool]

/-- Witness for the amended C2 at the concrete set {1, 2}: path 1 is a member
(no conflict), path 5 is not (conflict reported normally when uncoordinated,
assertion error when coordinated). -/
theorem su_parallel_conflict_iff_not_member_witness :
    su_parallel_has_conflict false eprW12 5 = .ok (decide (5 ∉ ({1, 2} : Finset Nat))) ∧
    (1 ∈ ({1, 2} : Finset Nat) → su_parallel_has_conflict true eprW12 1 = .ok false) ∧
    (5 ∉ ({1, 2} : Finset Nat) → true = true →
      (su_parallel_has_conflict true eprW12 5).isOk = false) :=
  ⟨(su_parallel_conflict_iff_not_member false eprW12 {1, 2} 5 rfl).1,
   (su_parallel_conflict_iff_not_member true eprW12 {1, 2} 1 rfl).2.1,
   (su_parallel_conflict_iff_not_member true eprW12 {1, 2} 5 rfl).2.2⟩

/-- C10 counterexample: on a map state where path 3 is already registered on
channel "qc", installing path 3 again and then uninstalling it does not
restore the map: `list.remove` drops the first occurrence, leaving the list
reordered ([5, 3] instead of [3, 5]). -/
theorem install_uninstall_reorders_on_duplicate :
    uninstall_path_neighbor (install_path_neighbor [("qc", [3, 5])] "qc" 3) "qc" 3 =
      .ok [("qc", [5, 3])] ∧
    ([("qc", [5, 3])] : QchannelPathsMap) ≠ [("qc", [3, 5])] := by
  refine ⟨rfl, ?_⟩
  decide

theorem find?_congr_fn {α : Type} (p q : α → Bool) (l : List α) (h : ∀ a, p a = q a) :
    l.find? p = l.find? q := by
  induction l with
  | nil => rfl
  | cons a t ih => simp only [List.find?_cons, h a, ih]

theorem removeFirst_append_self {l : List Nat} {x : Nat} (h : x ∉ l) :
    removeFirst (l ++ [x]) x = .ok l := by
  induction l with
  | nil => simp [removeFirst]
  | cons y ys ih =>
      have hy : y ≠ x := fun hxy => h (hxy ▸ List.mem_cons_self y ys)
      have hx : x ∉ ys := fun hm => h (List.mem_cons_of_mem y hm)
      simp [removeFirst, hy, ih hx, Except.map]

/-- C10 (amended): for any map with pairwise-distinct channel keys, no channel
mapped to an empty list, and the path_id not already registered on the
channel (all invariants of the scheme in normal operation), installing and
then uninstalling the same FIB entry on the same channel restores
`qchannel_paths_map` exactly; moreover uninstalling the last path registered
on a channel removes the channel key itself rather than leaving it mapped to
an empty list. Without the not-already-registered hypothesis the round trip
only preserves the multiset of registered path_ids, not the list. -/
theorem install_uninstall_roundtrip
    (m : QchannelPathsMap) (ch : String) (pid : Nat)
    (hkeys : (m.map Prod.fst).Nodup)
    (hne : ∀ e ∈ m, e.2 ≠ [])
    (hnotin : ∀ l, mapFind m ch = some l → pid ∉ l) :
    uninstall_path_neighbor (install_path_neighbor m ch pid) ch pid = .ok m ∧
    (∀ m2 : QchannelPathsMap, mapFind m2 ch = some [pid] →
      ∃ m3, uninstall_path_neighbor m2 ch pid = .ok m3 ∧ mapFind m3 ch = none) := by
  constructor
  · by_cases hpresent : (m.find? (fun e => e.1 == ch)).isSome
    · -- channel key already present: install appends, uninstall removes it back
      obtain ⟨e0, he0⟩ := Option.isSome_iff_exists.mp hpresent
      have he0mem : e0 ∈ m := List.mem_of_find?_eq_some he0
      have he0key : e0.1 = ch := by
        have := List.find?_some he0
        simpa using this
      have hkeyeq : ∀ e : String × List Nat,
          ((fun e : String × List Nat => e.1 == ch) ∘
            (fun e : String × List Nat => if e.1 == ch then (e.1, e.2 ++ [pid]) else e)) e =
          (fun e : String × List Nat => e.1 == ch) e := by
        intro e
        by_cases h : e.1 = ch <;> simp [Function.comp, h]
      have hfind2 :
          ((m.map (fun e => if e.1 == ch then (e.1, e.2 ++ [pid]) else e)).find?
            (fun e => e.1 == ch)) = some (e0.1, e0.2 ++ [pid]) := by
        rw [List.find?_map]
        rw [find?_congr_fn _ _ m hkeyeq, he0]
        simp [he0key]
      have hnotin0 : pid ∉ e0.2 := hnotin e0.2 (by simp [mapFind, he0])
      have hne0 : e0.2 ≠ [] := hne e0 he0mem
      have huniq : ∀ e ∈ m, e.1 = ch → e = e0 := by
        intro e hmem hkey
        exact List.inj_on_of_nodup_map hkeys hmem he0mem (by rw [hkey, he0key])
      unfold uninstall_path_neighbor install_path_neighbor
      rw [if_pos hpresent]
      simp only [mapFind, hfind2, Option.map_some']
      rw [removeFirst_append_self hnotin0]
      simp only [Except.map, if_neg hne0]
      congr 1
      rw [List.map_map]
      have : ∀ e ∈ m,
          ((fun e : String × List Nat => if e.1 == ch then (e.1, e0.2) else e) ∘
            (fun e : String × List Nat => if e.1 == ch then (e.1, e.2 ++ [pid]) else e)) e = e := by
        intro e hmem
        by_cases h : e.1 == ch
        · have : e = e0 := huniq e hmem (by simpa using h)
          subst this
          simp [he0key]
          rw [← he0key]
        · have hne2 : ¬ e.1 = ch := by simpa using h
          simp [hne2]
      calc m.map _ = m.map id := List.map_congr_left this
        _ = m := List.map_id m
    · -- channel key absent: install creates it, uninstall deletes it again
      have hnone : m.find? (fun e => e.1 == ch) = none := by
        cases hf : m.find? (fun e => e.1 == ch) with
        | none => rfl
        | some e => rw [hf] at hpresent; simp at hpresent
      have hnokey : ∀ e ∈ m, ¬((fun e : String × List Nat => e.1 == ch) e = true) := by
        intro e hmem
        exact fun hpe => by
          have := List.find?_eq_none.mp hnone e hmem
          exact this hpe
      unfold uninstall_path_neighbor install_path_neighbor
      rw [if_neg hpresent]
      have hfind2 : ((m ++ [(ch, [pid])]).find? (fun e => e.1 == ch)) = some (ch, [pid]) := by
        rw [List.find?_append, hnone]
        simp
      simp only [mapFind, hfind2, Option.map_some']
      rw [show removeFirst [pid] pid = .ok [] by simp [removeFirst]]
      simp only [Except.map, if_pos rfl]
      congr 1
      rw [List.filter_append]
      have h1 : m.filter (fun e => !(e.1 == ch)) = m :=
        List.filter_eq_self.mpr (fun e hmem => by
          simpa using List.find?_eq_none.mp hnone e hmem)
      simp [h1]
  · intro m2 hm2
    refine ⟨m2.filter (fun e => !(e.1 == ch)), ?_, ?_⟩
    · unfold uninstall_path_neighbor
      rw [hm2]
      simp [show removeFirst [pid] pid = .ok [] by simp [removeFirst], Except.map]
    · simp only [mapFind]
      rw [List.find?_eq_none.mpr]
      · rfl
      · intro e hmem
        have := List.of_mem_filter hmem
        simpa using this

/-- Witness for the amended C10: map with channel "qc" carrying path 7;
installing path 4 and uninstalling it restores the map, and a channel whose
last path is uninstalled disappears from the map. -/
theorem install_uninstall_roundtrip_witness :
    uninstall_path_neighbor (install_path_neighbor [("qc", [7])] "qc" 4) "qc" 4 =
      .ok [("qc", [7])] ∧
    (∀ m2 : QchannelPathsMap, mapFind m2 "qc" = some [4] →
      ∃ m3, uninstall_path_neighbor m2 "qc" 4 = .ok m3 ∧ mapFind m3 "qc" = none) :=
  install_uninstall_roundtrip [("qc", [7])] "qc" 4
    (by decide)
    (by intro e hmem; rw [List.mem_singleton] at hmem; subst hmem; decide)
    (by intro l hl; simp [mapFind] at hl; subst hl; decide)

theorem writeSlots_eq_none_of_freeCount_zero (slots : List (Option String)) (c : String)
    (h : freeCount slots = 0) : writeSlots slots c = none := by
  induction slots with
  | nil => rfl
  | cons s rest ih =>
      cases s with
      | none => simp [freeCount] at h
      | some x =>
          have : freeCount rest = 0 := by simpa [freeCount] using h
          simp [writeSlots, ih this]

theorem writeSlots_step (slots : List (Option String)) (c : String)
    (h : 0 < freeCount slots) :
    ∃ a s2, writeSlots slots c = some (a, s2) ∧
      freeCount s2 + 1 = freeCount slots ∧ s2.length = slots.length := by
  induction slots with
  | nil => simp [freeCount] at h
  | cons s rest ih =>
      cases s with
      | none =>
          refine ⟨0, some c :: rest, rfl, ?_, rfl⟩
          simp [freeCount]
      | some x =>
          have hrest : 0 < freeCount rest := by simpa [freeCount] using h
          obtain ⟨a, s2, hw, hc, hl⟩ := ih hrest
          refine ⟨a + 1, some x :: s2, ?_, ?_, ?_⟩
          · simp [writeSlots, hw]
          · simpa [freeCount] using hc
          · simpa using hl

theorem freeCount_zero_iff_all_isSome (slots : List (Option String)) :
    freeCount slots = 0 ↔ slots.all Option.isSome = true := by
  induction slots with
  | nil => simp [freeCount]
  | cons s rest ih =>
      cases s with
      | none => simp [freeCount]
      | some x => simpa [freeCount] using ih

theorem writeMany_fills (cs : List String) :
    ∀ slots : List (Option String), cs.length = freeCount slots →
    ∃ final : QuantumMemory, QuantumMemory.writeMany ⟨slots⟩ cs = some final ∧
      freeCount final.slots = 0 ∧ final.slots.length = slots.length := by
  induction cs with
  | nil =>
      intro slots h
      exact ⟨⟨slots⟩, rfl, h.symm, rfl⟩
  | cons c rest ih =>
      intro slots h
      have hlen1 : rest.length + 1 = freeCount slots := by
        simpa using h
      have hpos : 0 < freeCount slots := by omega
      obtain ⟨a, s2, hw, hc, hl⟩ := writeSlots_step slots c hpos
      have hrest : rest.length = freeCount s2 := by omega
      obtain ⟨final, hm, hf, hlen⟩ := ih s2 hrest
      refine ⟨final, ?_, hf, by rw [hlen, hl]⟩
      simp only [QuantumMemory.writeMany, QuantumMemory.write, hw]
      exact hm

/-- C9 counterexample: at capacity C = 0 the claim's premises hold (after the
0 successful writes the memory is full and the next write returns no result
without mutating state), yet after `clear()` the memory is still full, so
`is_full()` does not return false as the claim states for every capacity. -/
theorem memory_capacity_zero_clear_still_full :
    (QuantumMemory.init 0).writeMany [] = some (QuantumMemory.init 0) ∧
    (QuantumMemory.init 0).is_full = true ∧
    (QuantumMemory.init 0).write "q" = (none, QuantumMemory.init 0) ∧
    (QuantumMemory.init 0).clear.is_full = true :=
  ⟨rfl, rfl, rfl, rfl⟩

/-- C9 (amended): for every positive quantum-memory capacity C, after C
successful writes `is_full()` returns true, the (C+1)th write returns no
result and leaves the memory unchanged, and after `clear()` `is_full()`
returns false. -/
theorem memory_fills_then_rejects_then_clears
    (C : Nat) (hC : 0 < C) (cs : List String) (hlen : cs.length = C) :
    ∃ m : QuantumMemory, (QuantumMemory.init C).writeMany cs = some m ∧
      m.is_full = true ∧
      (∀ c, m.write c = (none, m)) ∧
      m.clear.is_full = false := by
  have hfree : freeCount (List.replicate C (none : Option String)) = C := by
    simp [freeCount]
  obtain ⟨m, hm, hzero, hlen2⟩ := writeMany_fills cs (List.replicate C none)
    (by rw [hfree, hlen])
  refine ⟨m, hm, (freeCount_zero_iff_all_isSome m.slots).mp hzero, ?_, ?_⟩
  · intro c
    simp [QuantumMemory.write, writeSlots_eq_none_of_freeCount_zero m.slots c hzero]
  · have hlenC : m.slots.length = C := by simpa using hlen2
    unfold QuantumMemory.clear QuantumMemory.is_full
    cases hs : m.slots with
    | nil =>
        exfalso
        rw [hs] at hlenC
        simp at hlenC
        omega
    | cons s rest => simp

/-- Witness for the amended C9 at capacity 2 with two writes. -/
theorem memory_fills_then_rejects_then_clears_witness :
    ∃ m : QuantumMemory, (QuantumMemory.init 2).writeMany ["epr0", "epr1"] = some m ∧
      m.is_full = true ∧
      (∀ c, m.write c = (none, m)) ∧
      m.clear.is_full = false :=
  memory_fills_then_rejects_then_clears 2 (by decide) ["epr0", "epr1"] rfl

/-- C3: in `generate_entanglement`, when the later of the two computed
notification times does not fall within the current external phase window,
no `LinkArchSuccessEvent` is scheduled and the link-layer state is left
unchanged; otherwise exactly two `LinkArchSuccessEvent`s are scheduled, one
targeting each endpoint of the channel, at their respective notification
times. -/
theorem generate_entanglement_drops_or_schedules_two
    (ll : LinkLayerState) (tc : ℚ) (is_external : ℚ → Bool)
    (dc da db : ℚ) (own next_hop epr_name : String) (qubit : MemoryQubit) :
    (is_external (max (tc + (dc + da)) (tc + (dc + db))) = false →
      generate_entanglement ll tc is_external dc da db own next_hop epr_name qubit =
        (ll, [])) ∧
    (is_external (max (tc + (dc + da)) (tc + (dc + db))) = true →
      generate_entanglement ll tc is_external dc da db own next_hop epr_name qubit =
        (ll,
         [⟨own,
           { name := epr_name, src := some own, dst := some next_hop, key := qubit.active,
             tmp_path_ids := none, creation_time := some (tc + dc),
             decoherence_time := none },
           tc + (dc + da)⟩,
          ⟨next_hop,
           { name := epr_name, src := some own, dst := some next_hop, key := qubit.active,
             tmp_path_ids := none, creation_time := some (tc + dc),
             decoherence_time := none },
           tc + (dc + db)⟩])) := by
  constructor
  · intro h
    simp [generate_entanglement, h]
  · intro h
    simp [generate_entanglement, h]

/-- Witness for C3: dropping under a phase window that excludes the
notification times, and scheduling both events under one that contains
them. -/
theorem generate_entanglement_drops_or_schedules_two_witness :
    generate_entanglement llW 0 (fun _ => false) 1 2 1 "A" "B" "e" qubitW = (llW, []) ∧
    generate_entanglement llW 0 (fun _ => true) 1 2 1 "A" "B" "e" qubitW =
      (llW, [⟨"A", eprGenW, 0 + (1 + 2)⟩, ⟨"B", eprGenW, 0 + (1 + 1)⟩]) :=
  ⟨(generate_entanglement_drops_or_schedules_two llW 0 (fun _ => false)
      1 2 1 "A" "B" "e" qubitW).1 rfl,
   (generate_entanglement_drops_or_schedules_two llW 0 (fun _ => true)
      1 2 1 "A" "B" "e" qubitW).2 rfl⟩

/-- C7 counterexample: a `QubitReleasedEvent` (explicit release, not
decoherence) for an initiator-side qubit in synchronous timing mode returns
normally — the qubit is merely reset to RAW — instead of raising the fatal
protocol error the claim states for explicit release as well. -/
theorem release_in_sync_mode_does_not_raise :
    lookupActive llAC.active_channels ("qc", qubitW.path_id) = some ("B", 1) ∧
    handle_decoh_rel llAC [] qubitW false false "k2" =
      .ok (llAC, [], { qubitW with state := .RAW, active := none }, []) :=
  ⟨rfl, rfl⟩

/-- C7 (amended): for every decoherence or release event whose qubit's
(channel, path_id) is in the active-channel table (initiator side), the qubit
is reset to RAW with its reservation key cleared, and then: in asynchronous
timing mode a fresh reservation toward the recorded neighbor is immediately
started (qubit re-marked ACTIVE under a fresh key, pending entry recorded,
RESERVE_QUBIT sent); in synchronous timing mode a fatal protocol error is
raised for decoherence only, while an explicit release returns normally with
the qubit left RAW and no reservation started. -/
theorem decoh_rel_initiator_restart_or_fatal
    (ll : LinkLayerState) (mem : Memory) (qubit : MemoryQubit)
    (is_decoh timing_async : Bool) (fresh_key : String) (qch : String) (nh : String × Nat)
    (hq : qubit.qchannel = some qch)
    (hac : lookupActive ll.active_channels (qch, qubit.path_id) = some nh)
    (hkey : ll.pending_init_reservation.find? (fun e => e.1 == fresh_key) = none) :
    (timing_async = true →
      handle_decoh_rel ll mem qubit is_decoh timing_async fresh_key =
        .ok ({ ll with
                decoh_count := if is_decoh then ll.decoh_count + 1 else ll.decoh_count,
                pending_init_reservation :=
                  ll.pending_init_reservation ++ [(fresh_key, (qch, nh.1, qubit.addr))] },
             mem,
             { qubit with state := .ACTIVE, active := some fresh_key },
             [.reserveQubit qubit.path_id fresh_key nh.1])) ∧
    (timing_async = false → is_decoh = true →
      (handle_decoh_rel ll mem qubit is_decoh timing_async fresh_key).isOk = false) ∧
    (timing_async = false → is_decoh = false →
      handle_decoh_rel ll mem qubit is_decoh timing_async fresh_key =
        .ok (ll, mem, { qubit with state := .RAW, active := none }, [])) := by
  refine ⟨?_, ?_, ?_⟩
  · intro ha
    subst ha
    simp [handle_decoh_rel, hq, hac, start_reservation, hkey, Except.map]
  · intro ha hd
    subst ha
    subst hd
    simp [handle_decoh_rel, hq, hac, Except.isOk, Except.toBool]
  · intro ha hd
    subst ha
    subst hd
    simp [handle_decoh_rel, hq, hac]

/-- Witness for the amended C7: decohered initiator-side qubit in
asynchronous mode restarts the reservation toward B under the fresh key. -/
theorem decoh_rel_initiator_restart_or_fatal_witness :
    (true = true →
      handle_decoh_rel llAC [] qubitW true true "k2" =
        .ok ({ llAC with
                decoh_count := if true then llAC.decoh_count + 1 else llAC.decoh_count,
                pending_init_reservation :=
                  llAC.pending_init_reservation ++ [("k2", ("qc", "B", qubitW.addr))] },
             [],
             { qubitW with state := .ACTIVE, active := some "k2" },
             [.reserveQubit qubitW.path_id "k2" "B"])) ∧
    (true = false → true = true →
      (handle_decoh_rel llAC [] qubitW true true "k2").isOk = false) ∧
    (true = false → true = false →
      handle_decoh_rel llAC [] qubitW true true "k2" =
        .ok (llAC, [], { qubitW with state := .RAW, active := none }, [])) :=
  decoh_rel_initiator_restart_or_fatal llAC [] qubitW true true "k2" "qc" ("B", 1)
    rfl rfl rfl

theorem find?_decompose {α : Type} (p : α → Bool) (l : List α) (a : α)
    (h : l.find? p = some a) :
    ∃ l1 l2, l = l1 ++ a :: l2 ∧ p a = true ∧ ∀ x ∈ l1, p x = false := by
  induction l with
  | nil => cases h
  | cons b t ih =>
      by_cases hb : p b
      · rw [List.find?_cons_of_pos _ hb] at h
        cases h
        exact ⟨[], t, rfl, hb, by simp⟩
      · rw [List.find?_cons_of_neg _ (by simpa using hb)] at h
        obtain ⟨l1, l2, heq, hpa, hall⟩ := ih h
        refine ⟨b :: l1, l2, by rw [heq]; rfl, hpa, ?_⟩
        intro x hx
        rcases List.mem_cons.mp hx with hx | hx
        · subst hx
          simpa using hb
        · exact hall x hx

theorem map_update_first {l1 l2 : Memory} {qv : MemoryQubit × Option WernerStateEntanglement}
    (f : MemoryQubit → MemoryQubit)
    (hnodup : ((l1 ++ qv :: l2).map (fun e => e.1.addr)).Nodup) :
    (l1 ++ qv :: l2).map
      (fun e => if e.1.addr = qv.1.addr then (f e.1, e.2) else e) =
      l1 ++ (f qv.1, qv.2) :: l2 := by
  rw [List.map_append] at hnodup
  rw [List.nodup_append] at hnodup
  obtain ⟨hn1, hn2, hdisj⟩ := hnodup
  have h1 : ∀ e ∈ l1, e.1.addr ≠ qv.1.addr := by
    intro e he
    intro hcontra
    exact hdisj (List.mem_map_of_mem _ he) (by simp [hcontra])
  have h2 : ∀ e ∈ l2, e.1.addr ≠ qv.1.addr := by
    intro e he
    intro hcontra
    rw [List.map_cons, List.nodup_cons] at hn2
    exact hn2.1 (hcontra ▸ List.mem_map_of_mem _ he)
  rw [List.map_append, List.map_cons]
  congr 1
  · calc l1.map _ = l1.map id := List.map_congr_left (by
        intro e he
        simp [h1 e he])
      _ = l1 := List.map_id l1
  · congr 1
    · simp
    · calc l2.map _ = l2.map id := List.map_congr_left (by
          intro e he
          simp [h2 e he])
        _ = l2 := List.map_id l2

/-- C6: for every RESERVE_QUBIT request: when memory holds a qubit that is
unoccupied, unreserved, on the request's channel and allocated to its
path_id, the first such qubit is marked RESERVED under the request's key and
a RESERVE_QUBIT_OK reply with the same path_id and key is sent; otherwise the
request is appended to the FIFO queue; and on each qubit release or
decoherence on the responder side at most the oldest queued request is
retried, removed from the queue only if accepted. -/
theorem reserve_request_accept_or_queue
    (mem : Memory) (fifo : List ReservationRequest) (req : ReservationRequest)
    (ll : LinkLayerState) (qubit : MemoryQubit) (qch : String)
    (is_decoh timing_async : Bool) (fresh_key : String)
    (haddr : (mem.map (fun e => e.1.addr)).Nodup)
    (hq : qubit.qchannel = some qch)
    (hac : lookupActive ll.active_channels (qch, qubit.path_id) = none) :
    (∀ qv, mem.find? (fun e => reservable req e.1 e.2) = some qv →
      ∃ l1 l2,
        mem = l1 ++ qv :: l2 ∧
        (∀ x ∈ l1, reservable req x.1 x.2 = false) ∧
        qv.2 = none ∧ qv.1.active = none ∧ qv.1.qchannel = some req.qchannel ∧
        qv.1.path_id = req.path_id ∧
        handle_reserve_req mem fifo req =
          (l1 ++ ({ qv.1 with state := .RESERVED, active := some req.key }, qv.2) :: l2,
           fifo, [.reserveQubitOk req.path_id req.key req.from_node])) ∧
    (mem.find? (fun e => reservable req e.1 e.2) = none →
      handle_reserve_req mem fifo req = (mem, fifo ++ [req], [])) ∧
    (ll.fifo_reservation_req = [] →
      handle_decoh_rel ll mem qubit is_decoh timing_async fresh_key =
        .ok ({ ll with
                decoh_count := if is_decoh then ll.decoh_count + 1 else ll.decoh_count },
             mem, { qubit with state := .RAW, active := none }, [])) ∧
    (∀ r rest, ll.fifo_reservation_req = r :: rest →
      (∀ mem2 msgs, try_accept_reservation mem r = (true, mem2, msgs) →
        handle_decoh_rel ll mem qubit is_decoh timing_async fresh_key =
          .ok ({ ll with
                  decoh_count := if is_decoh then ll.decoh_count + 1 else ll.decoh_count,
                  fifo_reservation_req := rest },
               mem2, { qubit with state := .RAW, active := none }, msgs)) ∧
      (∀ mem2 msgs, try_accept_reservation mem r = (false, mem2, msgs) →
        handle_decoh_rel ll mem qubit is_decoh timing_async fresh_key =
          .ok ({ ll with
                  decoh_count := if is_decoh then ll.decoh_count + 1 else ll.decoh_count },
               mem, { qubit with state := .RAW, active := none }, []))) := by
  refine ⟨?_, ?_, ?_, ?_⟩
  · intro qv hfind
    obtain ⟨l1, l2, heq, hpa, hall⟩ := find?_decompose _ mem qv hfind
    have hfacts := of_decide_eq_true hpa
    refine ⟨l1, l2, heq, hall, hfacts.1, hfacts.2.1, hfacts.2.2.1, hfacts.2.2.2, ?_⟩
    have hupd := map_update_first
      (fun q => { q with state := QubitState.RESERVED, active := some req.key })
      (heq ▸ haddr)
    simp only [handle_reserve_req, try_accept_reservation, hfind]
    rw [heq, hupd]
  · intro hfind
    simp [handle_reserve_req, try_accept_reservation, hfind]
  · intro hfifo
    simp [handle_decoh_rel, hq, hac, hfifo]
  · intro r rest hfifo
    constructor
    · intro mem2 msgs hacc
      simp [handle_decoh_rel, hq, hac, hfifo, hacc]
    · intro mem2 msgs hacc
      simp [handle_decoh_rel, hq, hac, hfifo, hacc]

/-- Witness for C6: the request is accepted on a memory with a matching free
qubit (the busy qubit at address 0 is skipped, the free one at address 1 is
reserved), and queued on a memory with no matching qubit. -/
theorem reserve_request_accept_or_queue_witness :
    (∃ l1 l2,
        memAcceptW = l1 ++ (qubitFreeW, none) :: l2 ∧
        (∀ x ∈ l1, reservable reqW x.1 x.2 = false) ∧
        (none : Option WernerStateEntanglement) = none ∧ qubitFreeW.active = none ∧
        qubitFreeW.qchannel = some reqW.qchannel ∧
        qubitFreeW.path_id = reqW.path_id ∧
        handle_reserve_req memAcceptW [] reqW =
          (l1 ++ ({ qubitFreeW with state := .RESERVED, active := some reqW.key }, none) :: l2,
           [], [.reserveQubitOk reqW.path_id reqW.key reqW.from_node])) ∧
    handle_reserve_req memRejectW [] reqW = (memRejectW, [reqW], []) :=
  ⟨(reserve_request_accept_or_queue memAcceptW [] reqW llW qubitW "qc" false false "kf"
      (by decide) rfl rfl).1 (qubitFreeW, none) rfl,
   (reserve_request_accept_or_queue memRejectW [] reqW llW qubitW "qc" false false "kf"
      (by decide) rfl rfl).2.1 rfl⟩

/-- C8 counterexample: with an asymmetric link architecture the responder-side
notification (t = 2) precedes the initiator-side one (t = 3); the first
endpoint to process the notification ("B") does not increment `etg_count`
(it stays 0), the source side "A" does, refuting the claim's "the first
endpoint to process the notification increments the generation counter". -/
theorem first_processing_endpoint_need_not_increment :
    (generate_entanglement llW 0 (fun _ => true) 1 2 1 "A" "B" "e" qubitW).2 =
      [⟨"A", eprGenW, 3⟩, ⟨"B", eprGenW, 2⟩] ∧
    ((2 : ℚ) < 3) ∧
    handle_success_entangle "B" 2 true 0 memLinkW eprGenW =
      .ok (0, [({ qubitW with state := .ENTANGLED0 }, some eprGenW)], ⟨"B", "A", 0, 2⟩) ∧
    handle_success_entangle "A" 3 true 0 memLinkW eprGenW =
      .ok (1, [({ qubitW with state := .ENTANGLED0 }, some eprGenW)], ⟨"A", "B", 0, 3⟩) := by
  refine ⟨?_, by norm_num, rfl, rfl⟩
  show ([⟨"A", eprGenW, 0 + (1 + 2)⟩, ⟨"B", eprGenW, 0 + (1 + 1)⟩] :
    List LinkArchSuccessEvent) = [⟨"A", eprGenW, 3⟩, ⟨"B", eprGenW, 2⟩]
  norm_num

/-- C8 (amended): on every LinkArchSuccessEvent delivery, the arriving half is
written into memory under its reservation key (failure to find a slot is
fatal), the receiving qubit becomes ENTANGLED0, a QubitEntangledEvent is
scheduled at the current simulated time, and `etg_count` is incremented
exactly when the processing node is the EPR's src (the primary/initiator
side), regardless of which endpoint processes its notification first —
hence each realized elementary pair is counted exactly once across the two
endpoints. -/
theorem handle_success_entangle_counts_on_primary
    (own : String) (tc : ℚ) (etg : Nat) (mem : Memory) (epr : WernerStateEntanglement)
    (neighbor : String)
    (hn : (if epr.src = some own then epr.dst else epr.src) = some neighbor)
    (hdec : (match epr.decoherence_time with
             | none => true
             | some d => decide (tc < d)) = true) :
    (memWrite mem epr epr.key = none →
      (handle_success_entangle own tc true etg mem epr).isOk = false) ∧
    (∀ mem2 qubit, memWrite mem epr epr.key = some (mem2, qubit) →
      handle_success_entangle own tc true etg mem epr =
        .ok (if epr.src = some own then etg + 1 else etg,
             mem2.map (fun e =>
               if e.1.addr = qubit.addr then ({ e.1 with state := .ENTANGLED0 }, e.2) else e),
             ⟨own, neighbor, qubit.addr, tc⟩)) := by
  by_cases hsrc : epr.src = some own
  · have hn2 : epr.dst = some neighbor := by simpa [hsrc] using hn
    constructor
    · intro hw
      simp [handle_success_entangle, hsrc, hn2, hdec, hw, Except.isOk, Except.toBool]
    · intro mem2 qubit hw
      simp [handle_success_entangle, hsrc, hn2, hdec, hw]
  · have hn2 : epr.src = some neighbor := by simpa [hsrc] using hn
    have hno : ¬ (neighbor = own) := fun h => hsrc (by rw [hn2, h])
    constructor
    · intro hw
      simp [handle_success_entangle, hsrc, hn2, hno, hdec, hw, Except.isOk, Except.toBool]
    · intro mem2 qubit hw
      simp [handle_success_entangle, hsrc, hn2, hno, hdec, hw]

/-- Witness for the amended C8: the source endpoint "A" processes its
notification and increments the counter from 0 to 1, writing the half under
key "k" at address 0. -/
theorem handle_success_entangle_counts_on_primary_witness :
    (memWrite memLinkW eprGenW eprGenW.key = none →
      (handle_success_entangle "A" 3 true 0 memLinkW eprGenW).isOk = false) ∧
    (∀ mem2 qubit, memWrite memLinkW eprGenW eprGenW.key = some (mem2, qubit) →
      handle_success_entangle "A" 3 true 0 memLinkW eprGenW =
        .ok (if eprGenW.src = some "A" then 0 + 1 else 0,
             mem2.map (fun e =>
               if e.1.addr = qubit.addr then ({ e.1 with state := .ENTANGLED0 }, e.2) else e),
             ⟨"A", "B", qubit.addr, 3⟩)) :=
  handle_success_entangle_counts_on_primary "A" 3 0 memLinkW eprGenW "B" rfl rfl

theorem mem_enumFinset (s : Finset Nat) (a : Nat) : a ∈ enumFinset s ↔ a ∈ s := by
  unfold enumFinset
  rw [List.mem_filter]
  constructor
  · intro h
    simpa using h.2
  · intro h
    refine ⟨?_, by simpa using h⟩
    rw [List.mem_range]
    have h2 : a ≤ s.sup id := by simpa using Finset.le_sup (f := id) h
    omega

theorem select_swap_qubit_mem (fn : SelectSwapQubit) (qubit : MemoryQubit)
    (epr : WernerStateEntanglement) (fib_entry : Option FibEntry)
    (cands : List (MemoryQubit × WernerStateEntanglement))
    (me : MemoryQubit × WernerStateEntanglement)
    (hsel : ∀ f, fn = some f → ∀ q e fe cs,
      cs ≠ ([] : List (MemoryQubit × WernerStateEntanglement)) → f q e fe cs ∈ cs)
    (h : select_swap_qubit fn qubit epr fib_entry cands = some me) :
    me ∈ cands := by
  cases fn with
  | none =>
      cases cands with
      | nil => cases h
      | cons a t =>
          have ha : a = me := by simpa [select_swap_qubit] using h
          rw [← ha]
          exact List.mem_cons_self a t
  | some f =>
      by_cases hc : cands.isEmpty
      · simp [select_swap_qubit, hc] at h
      · have h2 : f qubit epr fib_entry cands = me := by
          simpa [select_swap_qubit, hc] using h
        rw [← h2]
        refine hsel f rfl qubit epr fib_entry cands ?_
        intro hnil
        rw [hnil] at hc
        simp at hc

theorem swap_candidates_mem (m : QchannelPathsMap) (mem : Memory) (qch : String)
    (epr : WernerStateEntanglement) (me : MemoryQubit × WernerStateEntanglement)
    (h : me ∈ swap_candidates m mem qch epr) :
    (me.1, some me.2) ∈ mem ∧ me.1.state = QubitState.ELIGIBLE ∧
    (∃ c, me.1.qchannel = some c ∧ matched_channel m qch epr.tmp_path_ids c = true) ∧
    has_intersect_tmp_path_ids epr.tmp_path_ids me.2.tmp_path_ids = true := by
  obtain ⟨e, hemem, hfe⟩ := List.mem_filterMap.mp h
  rcases e with ⟨q1, v?⟩
  cases v? with
  | none => simp at hfe
  | some v =>
      cases hch : q1.qchannel with
      | none => simp [hch] at hfe
      | some c =>
          simp only [Option.some_bind, hch] at hfe
          by_cases hcond : (decide (q1.state = QubitState.ELIGIBLE) &&
              matched_channel m qch epr.tmp_path_ids c &&
              has_intersect_tmp_path_ids epr.tmp_path_ids v.tmp_path_ids) = true
          · rw [if_pos hcond] at hfe
            have hme : (q1, v) = me := by simpa using hfe
            obtain ⟨⟨hstate, hmc⟩, hint⟩ :
                ((decide (q1.state = QubitState.ELIGIBLE) = true ∧
                  matched_channel m qch epr.tmp_path_ids c = true) ∧
                  has_intersect_tmp_path_ids epr.tmp_path_ids v.tmp_path_ids = true) := by
              simpa [Bool.and_eq_true] using hcond
            rw [← hme]
            exact ⟨hemem, of_decide_eq_true hstate, ⟨c, hch, hmc⟩, hint⟩
          · rw [if_neg hcond] at hfe
            cases hfe

theorem has_intersect_true_iff (a b : Option (Finset Nat)) :
    has_intersect_tmp_path_ids a b = true ↔
    ∃ s0 s1, a = some s0 ∧ b = some s1 ∧ (s0 ∩ s1).Nonempty := by
  cases a with
  | none => simp [has_intersect_tmp_path_ids]
  | some s0 =>
      cases b with
      | none => simp [has_intersect_tmp_path_ids]
      | some s1 => simp [has_intersect_tmp_path_ids]

theorem fibGet_mem (fib : Fib) (pid : Nat) (fe : FibEntry) (h : fibGet fib pid = .ok fe) :
    (pid, fe) ∈ fib := by
  unfold fibGet at h
  cases hf : fib.find? (fun e => e.1 == pid) with
  | none => rw [hf] at h; cases h
  | some e =>
      rw [hf] at h
      have h2 : e.2 = fe := by simpa using h
      have hp : e.1 = pid := by simpa using List.find?_some hf
      have hmem := List.mem_of_find?_eq_some hf
      rw [← h2, ← hp]
      simpa using hmem

/-- C4: whenever `find_swap_candidate` of the statistical mux returns a
result, the returned qubit is ELIGIBLE and assigned to a quantum channel
different from the input qubit's; its EPR's candidate set intersects the
input EPR's; the returned FIB entry's path_id lies in that intersection; and
with `coordinated_decisions` both EPRs' candidate sets are replaced by the
singleton of the chosen path_id, while without it both are left unchanged. -/
theorem find_swap_candidate_sound
    (coordinated : Bool) (m : QchannelPathsMap) (fib : Fib) (fn : SelectSwapQubit)
    (pick : List Nat → Nat) (mem : Memory) (qubit : MemoryQubit)
    (epr : WernerStateEntanglement) (fib_entry : Option FibEntry) (r : SwapCandidateResult)
    (hpick : ∀ l : List Nat, l ≠ [] → pick l ∈ l)
    (hsel : ∀ f, fn = some f → ∀ q e fe cs,
      cs ≠ ([] : List (MemoryQubit × WernerStateEntanglement)) → f q e fe cs ∈ cs)
    (hfib : ∀ p fe, (p, fe) ∈ fib → fe.path_id = p)
    (hres : find_swap_candidate coordinated m fib fn pick mem qubit epr fib_entry =
      .ok (some r)) :
    r.mq1.state = QubitState.ELIGIBLE ∧
    (∃ qch c, qubit.qchannel = some qch ∧ r.mq1.qchannel = some c ∧ c ≠ qch) ∧
    (∃ e1 s0 s1,
      (r.mq1, some e1) ∈ mem ∧
      epr.tmp_path_ids = some s0 ∧ e1.tmp_path_ids = some s1 ∧
      (s0 ∩ s1).Nonempty ∧
      r.fib_entry.path_id ∈ s0 ∩ s1 ∧
      (coordinated = true →
        r.epr = { epr with tmp_path_ids := some {r.fib_entry.path_id} } ∧
        r.epr1 = { e1 with tmp_path_ids := some {r.fib_entry.path_id} }) ∧
      (coordinated = false → r.epr = epr ∧ r.epr1 = e1)) := by
  unfold find_swap_candidate at hres
  cases hq : qubit.qchannel with
  | none => simp only [hq] at hres; cases hres
  | some qch =>
  simp only [hq] at hres
  cases hfound : select_swap_qubit fn qubit epr fib_entry (swap_candidates m mem qch epr) with
  | none => simp only [hfound] at hres; simp at hres
  | some me =>
  simp only [hfound] at hres
  obtain ⟨hmem1, hstate, ⟨c, hc, hmc⟩, hint⟩ :=
    swap_candidates_mem m mem qch epr me
      (select_swap_qubit_mem fn qubit epr fib_entry _ me hsel hfound)
  obtain ⟨s0, s1, hs0, hs1, hne⟩ := (has_intersect_true_iff _ _).mp hint
  have hintersect : intersect_tmp_path_ids epr me.2 = .ok (s0 ∩ s1) := by
    simp [intersect_tmp_path_ids, hs0, hs1, Finset.nonempty_iff_ne_empty.mp hne]
  simp only [hintersect] at hres
  have hsortne : enumFinset (s0 ∩ s1) ≠ [] := by
    obtain ⟨a, ha⟩ := hne
    intro hnil
    have hmem : a ∈ enumFinset (s0 ∩ s1) := (mem_enumFinset _ a).mpr ha
    rw [hnil] at hmem
    cases hmem
  have hchosen : pick (enumFinset (s0 ∩ s1)) ∈ s0 ∩ s1 := by
    have := hpick _ hsortne
    rwa [mem_enumFinset] at this
  unfold find_swap_candidate_tail at hres
  cases hfg : fibGet fib (pick (enumFinset (s0 ∩ s1))) with
  | error e => simp only [hfg] at hres; cases hres
  | ok fe =>
  simp only [hfg] at hres
  have hfepid : fe.path_id = pick (enumFinset (s0 ∩ s1)) :=
    hfib _ fe (fibGet_mem fib _ fe hfg)
  have hr : r = ⟨me.1, fe,
      (if coordinated then { epr with tmp_path_ids := some {pick (enumFinset (s0 ∩ s1))} } else epr),
      (if coordinated then { me.2 with tmp_path_ids := some {pick (enumFinset (s0 ∩ s1))} } else me.2)⟩ := by
    have := hres
    simp at this
    exact this.symm
  subst hr
  refine ⟨hstate, ⟨qch, c, rfl, hc, ?_⟩, me.2, s0, s1, hmem1, hs0, hs1, hne, ?_, ?_, ?_⟩
  · obtain ⟨hnc, _⟩ : (!(c == qch)) = true ∧
        has_intersect_list epr.tmp_path_ids ((mapFind m c).getD []) = true := by
      simpa [matched_channel, Bool.and_eq_true] using hmc
    intro hceq
    rw [hceq] at hnc
    simp at hnc
  · simpa [hfepid] using hchosen
  · intro hco
    subst hco
    simp [hfepid]
  · intro hco
    subst hco
    simp

/-- Witness for C4: the partner on channel qc2 with candidate set {2, 3} is
found for the query EPR with candidate set {1, 2}; the chosen FIB entry is
path 2, in the intersection, and without coordinated decisions both EPRs are
unchanged. -/
theorem find_swap_candidate_sound_witness :
    resSwapW.mq1.state = QubitState.ELIGIBLE ∧
    (∃ qch c, qubitSwapW.qchannel = some qch ∧ resSwapW.mq1.qchannel = some c ∧ c ≠ qch) ∧
    (∃ e1 s0 s1,
      (resSwapW.mq1, some e1) ∈ memSwapW ∧
      eprW12.tmp_path_ids = some s0 ∧ e1.tmp_path_ids = some s1 ∧
      (s0 ∩ s1).Nonempty ∧
      resSwapW.fib_entry.path_id ∈ s0 ∩ s1 ∧
      (false = true →
        resSwapW.epr = { eprW12 with tmp_path_ids := some {resSwapW.fib_entry.path_id} } ∧
        resSwapW.epr1 = { e1 with tmp_path_ids := some {resSwapW.fib_entry.path_id} }) ∧
      (false = false → resSwapW.epr = eprW12 ∧ resSwapW.epr1 = e1)) :=
  find_swap_candidate_sound false mapW fibW none pickHead memSwapW qubitSwapW eprW12
    none resSwapW
    (by
      intro l hl
      cases l with
      | nil => exact absurd rfl hl
      | cons a t => simp [pickHead])
    (fun f hf => nomatch hf)
    (by
      intro p fe h
      simp [fibW] at h
      obtain ⟨h1, h2⟩ := h
      subst h1
      subst h2
      rfl)
    rfl

theorem mapExcept_ok (g : Nat → Except Err Int) (f : Nat → Int) (l : List Nat)
    (h : ∀ p ∈ l, g p = .ok (f p)) : mapExcept g l = .ok (l.map f) := by
  induction l with
  | nil => rfl
  | cons p rest ih =>
      have hp := h p (List.mem_cons_self p rest)
      have hrest := ih (fun q hq => h q (List.mem_cons_of_mem p hq))
      simp [mapExcept, hp, hrest]

theorem can_enter_purif_spec (fib : Fib) (neighbor : String) (s : Finset Nat)
    (epr2 : WernerStateEntanglement) (he : epr2.tmp_path_ids = some s) (hsne : s.Nonempty)
    (f : Nat → Int) (hf : ∀ p ∈ s, calc_rank_diff fib neighbor p = .ok (f p)) :
    ((∀ p ∈ s, ∀ q ∈ s, f p = f q) →
      can_enter_purif fib epr2 neighbor = .ok (decide (∀ p ∈ s, f p ≤ 0))) ∧
    ((∃ p ∈ s, ∃ q ∈ s, f p ≠ f q) →
      (can_enter_purif fib epr2 neighbor).isOk = false) := by
  have hmap : mapExcept (calc_rank_diff fib neighbor) (enumFinset s) =
      .ok ((enumFinset s).map f) :=
    mapExcept_ok _ f _ (fun p hp => hf p ((mem_enumFinset s p).mp hp))
  cases hl : enumFinset s with
  | nil =>
      exfalso
      obtain ⟨a, ha⟩ := hsne
      have hmem := (mem_enumFinset s a).mpr ha
      rw [hl] at hmem
      cases hmem
  | cons d0 rest =>
      rw [hl] at hmap
      have hd0 : d0 ∈ s := (mem_enumFinset s d0).mp (by rw [hl]; exact List.mem_cons_self _ _)
      have hrestmem : ∀ x ∈ rest, x ∈ s := fun x hx =>
        (mem_enumFinset s x).mp (by rw [hl]; exact List.mem_cons_of_mem _ hx)
      constructor
      · intro heq
        have hall : ((rest.map f).all (fun x => x == f d0)) = true := by
          rw [List.all_eq_true]
          intro x hx
          obtain ⟨y, hy, hxy⟩ := List.mem_map.mp hx
          rw [← hxy]
          exact beq_iff_eq.mpr (heq y (hrestmem y hy) d0 hd0)
        have hiff : (f d0 ≤ 0) ↔ (∀ p ∈ s, f p ≤ 0) := by
          constructor
          · intro h0 p hp
            rw [heq p hp d0 hd0]
            exact h0
          · intro hall2
            exact hall2 d0 hd0
        simp only [can_enter_purif, he, hl, hmap, List.map_cons]
        rw [if_pos hall]
        rw [decide_eq_decide.mpr hiff]
      · intro hex
        obtain ⟨p, hp, q, hq, hpq⟩ := hex
        have hallfalse : ((rest.map f).all (fun x => x == f d0)) = false := by
          rw [Bool.eq_false_iff]
          intro htrue
          rw [List.all_eq_true] at htrue
          obtain ⟨x, hxs, hxd⟩ : ∃ x ∈ s, f x ≠ f d0 := by
            by_cases hpd : f p = f d0
            · exact ⟨q, hq, fun h => hpq (hpd.trans h.symm)⟩
            · exact ⟨p, hp, hpd⟩
          have hxl : x ∈ d0 :: rest := by
            rw [← hl]
            exact (mem_enumFinset s x).mpr hxs
          rcases List.mem_cons.mp hxl with hx0 | hxr
          · exact hxd (by rw [hx0])
          · have hbeq := htrue (f x) (List.mem_map_of_mem f hxr)
            exact hxd (by simpa using hbeq)
        simp only [can_enter_purif, he, hl, hmap, List.map_cons]
        rw [if_neg (by simp [hallfalse])]
        rfl

/-- C5: in the statistical mux a freshly entangled qubit is promoted to
ELIGIBLE (and the forwarder notified via `qubit_is_eligible`) exactly when,
for every path_id in its EPR's candidate set, the node's own swap rank minus
the notifying neighbor's swap rank on that path is at most zero; when the
rank differences over the candidate paths are not all equal, the call raises
instead of promoting. -/
theorem qubit_promotion_iff_ranks_not_ahead
    (coordinated : Bool) (m : QchannelPathsMap) (fib : Fib) (mem : Memory)
    (qubit : MemoryQubit) (neighbor : String) (qch : String) (q0 : MemoryQubit)
    (epr : WernerStateEntanglement) (s : Finset Nat) (f : Nat → Int)
    (hpid : qubit.path_id = none)
    (hqch : qubit.qchannel = some qch)
    (hfound : mem.find? (fun e => e.1.addr == qubit.addr) = some (q0, some epr))
    (hset : (epr.tmp_path_ids = none ∧ s = ((mapFind m qch).getD []).toFinset) ∨
            (epr.tmp_path_ids = some s ∧
              (coordinated = true → s ⊆ ((mapFind m qch).getD []).toFinset) ∧
              (coordinated = false → s = ((mapFind m qch).getD []).toFinset)))
    (hposs : ((mapFind m qch).getD []).toFinset ≠ ∅)
    (hsne : s.Nonempty)
    (hf : ∀ p ∈ s, calc_rank_diff fib neighbor p = .ok (f p)) :
    ((∀ p ∈ s, ∀ q ∈ s, f p = f q) →
      qubit_is_entangled coordinated m fib mem qubit neighbor =
        .ok (if ∀ p ∈ s, f p ≤ 0
          then ⟨{ qubit with state := .ELIGIBLE },
                some { epr with tmp_path_ids := some s }, true, false⟩
          else ⟨qubit, some { epr with tmp_path_ids := some s }, false, false⟩)) ∧
    ((∃ p ∈ s, ∃ q ∈ s, f p ≠ f q) →
      (qubit_is_entangled coordinated m fib mem qubit neighbor).isOk = false) := by
  have hreduce : qubit_is_entangled coordinated m fib mem qubit neighbor =
      qubit_is_entangled_finish fib qubit { epr with tmp_path_ids := some s } neighbor := by
    rcases hset with ⟨htmp, hs⟩ | ⟨htmp, hc1, hc0⟩
    · subst hs
      simp only [qubit_is_entangled, hpid, hqch, hfound, htmp]
      rw [if_neg hposs]
    · have heprid : ({ epr with tmp_path_ids := some s } : WernerStateEntanglement) = epr := by
        rw [← htmp]
      simp only [qubit_is_entangled, hpid, hqch, hfound, htmp]
      rw [if_neg hposs]
      cases hco : coordinated
      · rw [if_neg Bool.false_ne_true, if_pos (hc0 hco), heprid]
      · rw [if_pos rfl, if_pos (hc1 hco), heprid]
  have hspec := can_enter_purif_spec fib neighbor s { epr with tmp_path_ids := some s }
    rfl hsne f hf
  constructor
  · intro heq
    have hcan := hspec.1 heq
    rw [hreduce]
    by_cases hP : ∀ p ∈ s, f p ≤ 0
    · have hd : decide (∀ p ∈ s, f p ≤ 0) = true := decide_eq_true hP
      rw [if_pos hP]
      simp [qubit_is_entangled_finish, hcan, hd]
    · have hd : decide (∀ p ∈ s, f p ≤ 0) = false := decide_eq_false hP
      rw [if_neg hP]
      simp [qubit_is_entangled_finish, hcan, hd]
  · intro hex
    have hcan := hspec.2 hex
    rw [hreduce]
    unfold qubit_is_entangled_finish
    cases hcp : can_enter_purif fib { epr with tmp_path_ids := some s } neighbor with
    | error e => rfl
    | ok b =>
        rw [hcp] at hcan
        simp [Except.isOk, Except.toBool] at hcan

/-- Witness for C5: path 2 on channel qc1, neighbor A with swap rank 1 and
own rank 0, so the common rank difference is -1 and the qubit is promoted. -/
theorem qubit_promotion_iff_ranks_not_ahead_witness :
    ((∀ p ∈ ({2} : Finset Nat), ∀ q ∈ ({2} : Finset Nat),
        (fun _ => (-1 : Int)) p = (fun _ => (-1 : Int)) q) →
      qubit_is_entangled false mapC5 fibW memC5 qubitEnt "A" =
        .ok (if ∀ p ∈ ({2} : Finset Nat), (fun _ => (-1 : Int)) p ≤ 0
          then ⟨{ qubitEnt with state := .ELIGIBLE },
                some { eprC5 with tmp_path_ids := some {2} }, true, false⟩
          else ⟨qubitEnt, some { eprC5 with tmp_path_ids := some {2} }, false, false⟩)) ∧
    ((∃ p ∈ ({2} : Finset Nat), ∃ q ∈ ({2} : Finset Nat),
        (fun _ => (-1 : Int)) p ≠ (fun _ => (-1 : Int)) q) →
      (qubit_is_entangled false mapC5 fibW memC5 qubitEnt "A").isOk = false) :=
  qubit_promotion_iff_ranks_not_ahead false mapC5 fibW memC5 qubitEnt "A" "qc1"
    qubitEnt eprC5 {2} (fun _ => (-1 : Int)) rfl rfl rfl
    (Or.inr ⟨rfl, fun h => absurd h (by decide), fun _ => by decide⟩)
    (by decide)
    ⟨2, by decide⟩
    (by
      intro p hp
      rw [Finset.mem_singleton] at hp
      subst hp
      rfl)

end MQNS
